import Mathlib

/-!
A shallow embedding of the bambi index decoder (src/src/decode.c) and proofs
about its barcode-matching, metrics, header-rewriting and record-processing
logic.  C strings are modelled as List Char, C int parameters as Int, and
counters as Nat.  The bc_array_t array keeps its sentinel at index 0; here it
is split into an entry0 field (the sentinel) and an entries list holding
entries[1 .. end-1].  An index of type Option Nat identifies a returned entry:
some i is entries[i] (a real barcode), none is the sentinel entries[0].
Where the C code dereferences a null pointer (a barcode of NULL reaching
noCalls, or add_suffix with a NULL name), the embedding returns none: those
executions have no defined result.
-/

namespace BambiDecode

/-- bc_details_t: one row of the barcode definition plus live counters. -/
structure BcDetails where
  seq : List Char
  name : List Char
  lib : List Char
  sample : List Char
  desc : List Char
  reads : Nat
  pf_reads : Nat
  perfect : Nat
  pf_perfect : Nat
  one_mismatch : Nat
  pf_one_mismatch : Nat
  deriving DecidableEq

/-- bc_array_t: entry0 models entries[0] (the sentinel), entries models
entries[1 .. end-1] in order. -/
structure BcArray where
  tag_len : Nat
  entry0 : BcDetails
  entries : List BcDetails
  deriving DecidableEq

/-- opts_t, restricted to the fields the decoding core reads. -/
structure OptsT where
  max_no_calls : Int
  max_mismatches : Int
  min_mismatch_delta : Int
  max_low_quality_to_convert : Int
  convert_low_quality : Bool
  change_read_name : Bool
  deriving DecidableEq

/-- isNoCall: return true if base is a noCall (N, n or .). -/
def isNoCall (b : Char) : Bool :=
  b = 'N' || b = 'n' || b = '.'

/-- noCalls: count the number of noCalls in a sequence. -/
def noCalls : List Char → Nat
  | [] => 0
  | c :: s => (if isNoCall c then 1 else 0) + noCalls s

/-- countMismatches: count of positions where the tag and the barcode both
carry a non-noCall character and the characters differ.  The C loop runs
until the end of the tag; when the barcode is shorter the C code reads past
its end (undefined), here the count simply stops. -/
def countMismatches : List Char → List Char → Nat
  | [], _ => 0
  | _ :: _, [] => 0
  | t :: ts, b :: bs =>
      (if isNoCall t then 0 else if isNoCall b then 0 else if t = b then 0 else 1) +
        countMismatches ts bs

/-- checkBarcodeQuality: new barcode read with low-quality bases converted to
N.  Returns none when barcode and quality have different lengths (the C code
prints a warning and returns NULL).  A configured threshold of 0 falls back
to the compiled default 15, as in the C conditional expression. -/
def checkBarcodeQuality (barcode quality : List Char)
    (max_low_quality_to_convert : Int) : Option (List Char) :=
  if barcode.length ≠ quality.length then none
  else
    let mlq : Int := if max_low_quality_to_convert = 0 then 15
                     else max_low_quality_to_convert
    some ((barcode.zip quality).map
      (fun p => if ((p.2.toNat : Int) - 33) ≤ mlq then 'N' else p.1))

/-- The scanning loop of findBestMatch: for each tag in barcodeArray, track
the best match, its mismatch count nmBest, and the second-best count nm2Best.
idx is the position (within BcArray.entries) of the entry under scrutiny. -/
def bestLoop (barcode : List Char) :
    List BcDetails → Nat → Option Nat → Nat → Nat → Option Nat × Nat × Nat
  | [], _, best_match, nmBest, nm2Best => (best_match, nmBest, nm2Best)
  | bcd :: rest, idx, best_match, nmBest, nm2Best =>
      let nMismatches := countMismatches bcd.seq barcode
      if nMismatches < nmBest then
        bestLoop barcode rest (idx + 1) (some idx) nMismatches
          (if best_match.isSome then nmBest else nm2Best)
      else
        bestLoop barcode rest (idx + 1) best_match nmBest
          (if nMismatches < nm2Best then nMismatches else nm2Best)

/-- findBestMatch: best match in the barcode array for a given barcode, with
both nmBest and nm2Best initialised to tag_len.  some i identifies
entries[i]; none is the sentinel entries[0]. -/
def findBestMatch (barcode : List Char) (barcodeArray : BcArray)
    (opts : OptsT) : Option Nat :=
  let r := bestLoop barcode barcodeArray.entries 0 none
             barcodeArray.tag_len barcodeArray.tag_len
  if r.1.isSome ∧ (noCalls barcode : Int) ≤ opts.max_no_calls ∧
      (r.2.1 : Int) ≤ opts.max_mismatches ∧
      (r.2.2 : Int) - (r.2.1 : Int) ≥ opts.min_mismatch_delta
  then r.1 else none

/-- updateMetrics: update the metrics information of one entry.  In the C
code a NULL observed sequence leaves n at 99 (neither 0 nor 1). -/
def updateMetrics (bcd : BcDetails) (seq : Option (List Char))
    (isPf : Bool) : BcDetails :=
  let n : Nat := match seq with
    | none => 99
    | some s => countMismatches bcd.seq s
  let b1 := { bcd with reads := bcd.reads + 1 }
  let b2 := if isPf then { b1 with pf_reads := b1.pf_reads + 1 } else b1
  let b3 := if n = 0 then
      let p := { b2 with perfect := b2.perfect + 1 }
      if isPf then { p with pf_perfect := p.pf_perfect + 1 } else p
    else b2
  if n = 1 then
    let q := { b3 with one_mismatch := b3.one_mismatch + 1 }
    if isPf then { q with pf_one_mismatch := q.pf_one_mismatch + 1 } else q
  else b3

/-- Replace the element at one position of a list (identity out of range). -/
def modifyAt (f : BcDetails → BcDetails) : Nat → List BcDetails → List BcDetails
  | _, [] => []
  | 0, x :: xs => f x :: xs
  | n + 1, x :: xs => x :: modifyAt f n xs

/-- Dereference an entry index (none is the sentinel entries[0]). -/
def entryAt (t : BcArray) (idx : Option Nat) : BcDetails :=
  match idx with
  | none => t.entry0
  | some i => t.entries.getD i t.entry0

/-- Apply updateMetrics through an entry index, as the C code does through
the pointer returned by findBestMatch. -/
def updateMetricsAt (t : BcArray) (idx : Option Nat) (seq : Option (List Char))
    (isPf : Bool) : BcArray :=
  match idx with
  | none => { t with entry0 := updateMetrics t.entry0 seq isPf }
  | some i => { t with entries := modifyAt (fun b => updateMetrics b seq isPf) i t.entries }

/-- findBarcodeName: find the best match, update its metrics, and return its
name together with the updated table. -/
def findBarcodeName (barcode : List Char) (t : BcArray) (opts : OptsT)
    (isPf : Bool) : List Char × BcArray :=
  let idx := findBestMatch barcode t opts
  ((entryAt t idx).name, updateMetricsAt t idx (some barcode) isPf)

/-! ### Records and processRecord -/

/-- The slice of a BAM record the decoder touches: the read name, the paired
and fail-quality-control flag bits, and the BC / QT / RG string tags. -/
structure Record where
  name : List Char
  flag_paired : Bool
  flag_qcfail : Bool
  bc : Option (List Char)
  qt : Option (List Char)
  rg : Option (List Char)
  deriving DecidableEq

/-- The freshly initialised record written by the C code when reading the
mate fails (bam_init1 with nothing read into it). -/
def defaultRecord : Record :=
  { name := [], flag_paired := false, flag_qcfail := false,
    bc := none, qt := none, rg := none }

/-- makeNewTag: existing RG value (empty when absent) with #name appended. -/
def makeNewTag (rec : Record) (name : List Char) : List Char :=
  (rec.rg.getD []) ++ '#' :: name

/-- add_suffix: append #suffix to the read name. -/
def add_suffix (rec : Record) (suffix : List Char) : Record :=
  { rec with name := rec.name ++ '#' :: suffix }

/-- The barcode-preparation step of processRecord: quality conversion is
applied only when configured and a quality tag is present. -/
def prepareBarcode (opts : OptsT) (rec : Record) (seq : List Char) :
    Option (List Char) :=
  if opts.convert_low_quality then
    match rec.qt with
    | some qual => checkBarcodeQuality seq qual opts.max_low_quality_to_convert
    | none => some seq
  else some seq

/-- processRecord: process one BAM record (and its mate when paired) from the
head of the input stream.  The result is (records written, remaining input,
updated table); none models the undefined executions in which the C code
dereferences a null pointer: a null converted barcode flowing into
noCalls / the truncation store, or add_suffix called with the NULL name when
the primary record had no barcode tag. -/
def processRecord (opts : OptsT) (barcodeArray : BcArray) :
    List Record → Option (List Record × List Record × BcArray)
  | [] => some ([], [], barcodeArray)
  | file_read :: input1 =>
    match file_read.bc with
    | none =>
      if file_read.flag_paired then
        match input1 with
        | mate :: input2 =>
          if opts.change_read_name then none
          else some ([file_read, mate], input2, barcodeArray)
        | [] =>
          if opts.change_read_name then none
          else some ([file_read, defaultRecord], [], barcodeArray)
      else some ([file_read], input1, barcodeArray)
    | some seq =>
      match prepareBarcode opts file_read seq with
      | none => none
      | some ns0 =>
        let ns := if barcodeArray.tag_len < seq.length
                  then ns0.take barcodeArray.tag_len else ns0
        let r := findBarcodeName ns barcodeArray opts (!file_read.flag_qcfail)
        let tagged0 := { file_read with rg := some (makeNewTag file_read r.1) }
        let tagged := if opts.change_read_name then add_suffix tagged0 r.1 else tagged0
        if file_read.flag_paired then
          match input1 with
          | mate :: input2 =>
            let mate1 := { mate with rg := some (makeNewTag mate r.1) }
            let mate2 := if opts.change_read_name then add_suffix mate1 r.1 else mate1
            some ([tagged, mate2], input2, r.2)
          | [] =>
            let mate1 := { defaultRecord with rg := some (makeNewTag defaultRecord r.1) }
            let mate2 := if opts.change_read_name then add_suffix mate1 r.1 else mate1
            some ([tagged, mate2], [], r.2)
        else some ([tagged], input1, r.2)

/-! ### Header rewriting -/

/-- One @RG declaration: its ID and its remaining tag/value pairs in order
(the ID tag itself is not in the list, matching how changeHeader serialises
a read group as name, then every non-ID tag). -/
structure RG where
  id : List Char
  tags : List (List Char × List Char)
  deriving DecidableEq

/-- The tag-rewriting loop of addNewRG: PU gets #bcname appended; LB, DS and
SM are replaced by the library / description / sample when one was supplied
(they are NULL for the sentinel); every other tag is copied unchanged. -/
def addNewRGtags (bcname : List Char) (lib sample desc : Option (List Char)) :
    List (List Char × List Char) → List (List Char × List Char)
  | [] => []
  | (t, v) :: rest =>
    let v1 := if t = ['P', 'U'] then v ++ '#' :: bcname else v
    let v2 := if t = ['L', 'B'] then (match lib with | some l => l | none => v1) else v1
    let v3 := if t = ['D', 'S'] then (match desc with | some d => d | none => v2) else v2
    let v4 := if t = ['S', 'M'] then (match sample with | some s => s | none => v3) else v3
    (t, v4) :: addNewRGtags bcname lib sample desc rest

/-- addNewRG: a new @RG line whose ID is the original ID with #bcname
appended and whose tags are rewritten by addNewRGtags. -/
def addNewRG (rg : RG) (bcname : List Char)
    (lib sample desc : Option (List Char)) : RG :=
  { id := rg.id ++ '#' :: bcname, tags := addNewRGtags bcname lib sample desc rg.tags }

/-- changeHeader: every original @RG line is deleted and replaced by one line
for the sentinel (name 0, keeping the original LB/SM/DS) and one line per
barcode entry. -/
def changeHeader (barcodeArray : BcArray) : List RG → List RG
  | [] => []
  | rg :: rest =>
      (addNewRG rg ['0'] none none none ::
        barcodeArray.entries.map
          (fun bcd => addNewRG rg bcd.name (some bcd.lib) (some bcd.sample) (some bcd.desc)))
        ++ changeHeader barcodeArray rest

/-! ### Metrics reporting -/

/-- The aggregate counts of writeMetrics. -/
structure Totals where
  total_reads : Nat
  total_pf_reads : Nat
  total_pf_reads_assigned : Nat
  max_reads : Nat
  max_pf_reads : Nat
  nReads : Nat
  deriving DecidableEq

/-- The first loop of writeMetrics, over entries[1 .. end-1]. -/
def countLoop (acc : Totals) : List BcDetails → Totals
  | [] => acc
  | bcd :: rest =>
      countLoop
        { total_reads := acc.total_reads + bcd.reads,
          total_pf_reads := acc.total_pf_reads + bcd.pf_reads,
          total_pf_reads_assigned := acc.total_pf_reads_assigned + bcd.pf_reads,
          max_reads := if acc.max_reads < bcd.reads then bcd.reads else acc.max_reads,
          max_pf_reads := if acc.max_pf_reads < bcd.pf_reads then bcd.pf_reads else acc.max_pf_reads,
          nReads := acc.nReads + 1 } rest

/-- The totals computed by writeMetrics: total_reads and total_pf_reads start
from the sentinel entries[0]; the other accumulators start from zero and see
only the non-sentinel entries. -/
def computeTotals (t : BcArray) : Totals :=
  countLoop
    { total_reads := t.entry0.reads, total_pf_reads := t.entry0.pf_reads,
      total_pf_reads_assigned := 0, max_reads := 0, max_pf_reads := 0,
      nReads := 0 } t.entries

/-- A guarded ratio as printed by writeMetricsLine: 0 whenever the integer
denominator is 0, otherwise the exact quotient. -/
def ratioOrZero (num den : Nat) : Rat :=
  if den = 0 then 0 else (num : Rat) / (den : Rat)

/-- The guarded pf_normalized_matches value: pf_reads * nReads over the
assigned total, 0 when that total is 0. -/
def normalizedOrZero (pf_reads nReads assigned : Nat) : Rat :=
  if assigned = 0 then 0 else ((pf_reads * nReads : Nat) : Rat) / (assigned : Rat)

/-- One output row of the metrics file, in column order. -/
structure MetricsRow where
  m_seq : List Char
  m_name : List Char
  m_lib : List Char
  m_sample : List Char
  m_desc : List Char
  m_reads : Nat
  m_pf_reads : Nat
  m_perfect : Nat
  m_pf_perfect : Nat
  m_one_mismatch : Nat
  m_pf_one_mismatch : Nat
  m_pct_matches : Rat
  m_ratio_to_best : Rat
  m_pf_pct_matches : Rat
  m_pf_ratio_to_best : Rat
  m_pf_normalized : Rat
  deriving DecidableEq

/-- writeMetricsLine: one rendered row with its five derived ratios. -/
def writeMetricsLine (bcd : BcDetails)
    (total_reads max_reads total_pf_reads max_pf_reads
      total_pf_reads_assigned nReads : Nat) : MetricsRow :=
  { m_seq := bcd.seq, m_name := bcd.name, m_lib := bcd.lib,
    m_sample := bcd.sample, m_desc := bcd.desc,
    m_reads := bcd.reads, m_pf_reads := bcd.pf_reads,
    m_perfect := bcd.perfect, m_pf_perfect := bcd.pf_perfect,
    m_one_mismatch := bcd.one_mismatch, m_pf_one_mismatch := bcd.pf_one_mismatch,
    m_pct_matches := ratioOrZero bcd.reads total_reads,
    m_ratio_to_best := ratioOrZero bcd.reads max_reads,
    m_pf_pct_matches := ratioOrZero bcd.pf_reads total_pf_reads,
    m_pf_ratio_to_best := ratioOrZero bcd.pf_reads max_pf_reads,
    m_pf_normalized := normalizedOrZero bcd.pf_reads nReads total_pf_reads_assigned }

/-- writeMetrics: one row per non-sentinel entry, then the sentinel row with
perfect counters forced to 0, its name blanked, and an assigned total of 0. -/
def writeMetrics (t : BcArray) : List MetricsRow :=
  let c := computeTotals t
  (t.entries.map (fun bcd =>
      writeMetricsLine bcd c.total_reads c.max_reads c.total_pf_reads
        c.max_pf_reads c.total_pf_reads_assigned c.nReads))
    ++ [writeMetricsLine
          { t.entry0 with perfect := 0, pf_perfect := 0, name := [] }
          c.total_reads c.max_reads c.total_pf_reads c.max_pf_reads 0 c.nReads]

/-! ### Loading the barcode file -/

/-- The strtok tokenisation of one line on tab: empty tokens are skipped. -/
def strtokTabs (s : List Char) : List (List Char) :=
  (s.splitOn '\t').filter (fun tok => tok ≠ [])

/-- The row loop of loadBarcodeFile over the data lines (header line already
consumed, trailing newlines already stripped).  tagLength starts at 0 and is
fixed by the first row; a row whose sequence has a different length is the
error return.  Tokens beyond the fifth are ignored, as strtok leaves them
unread; a line with fewer than five tokens makes the C code pass NULL to
strdup (undefined behaviour), modelled here as the same failure value. -/
def loadRows (tagLength : Nat) (acc : List BcDetails) :
    List (List Char) → Option (Nat × List BcDetails)
  | [] => some (tagLength, acc)
  | line :: rest =>
    match strtokTabs line with
    | s0 :: s1 :: s2 :: s3 :: s4 :: _ =>
      let bcd : BcDetails :=
        { seq := s0, name := s1, lib := s2, sample := s3, desc := s4,
          reads := 0, pf_reads := 0, perfect := 0, pf_perfect := 0,
          one_mismatch := 0, pf_one_mismatch := 0 }
      if tagLength = 0 then loadRows s0.length (acc ++ [bcd]) rest
      else if tagLength = s0.length then loadRows tagLength (acc ++ [bcd]) rest
      else none
    | _ => none

/-- loadBarcodeFile: parse the data lines and, after the last row, give the
sentinel its sequence of tag_length copies of N (name 0, empty metadata). -/
def loadBarcodeFile (rows : List (List Char)) : Option BcArray :=
  match loadRows 0 [] rows with
  | none => none
  | some (tagLength, entries) =>
    some { tag_len := tagLength,
           entry0 :=
             { seq := List.replicate tagLength 'N', name := ['0'],
               lib := [], sample := [], desc := [],
               reads := 0, pf_reads := 0, perfect := 0, pf_perfect := 0,
               one_mismatch := 0, pf_one_mismatch := 0 },
           entries := entries }

/-! ### Specification-side definitions

These definitions are written from the specification text of the claims and
serve as comparison targets for the code-level definitions above. -/

/-- Specification: the Hamming distance of two equal-length strings (count of
positions whose characters differ; stops at the shorter list). -/
def hammingDist : List Char → List Char → Nat
  | a :: as, b :: bs => (if a = b then 0 else 1) + hammingDist as bs
  | _, _ => 0

/-- Specification: remove the first occurrence of the minimum of a list. -/
def dropFirstMin : List Nat → List Nat
  | [] => []
  | x :: xs => if ∀ y ∈ xs, x ≤ y then xs else x :: dropFirstMin xs

/-- Specification: index of the first occurrence of the minimum of a list. -/
def firstMinIdx : List Nat → Nat
  | [] => 0
  | x :: xs => if ∀ y ∈ xs, x ≤ y then 0 else firstMinIdx xs + 1

/-- The mismatch counts of an observed barcode against the non-sentinel
entries, in table order. -/
def mismatchCounts (barcode : List Char) (t : BcArray) : List Nat :=
  t.entries.map (fun e => countMismatches e.seq barcode)

/-- Specification: the best (minimum) mismatch count, capped at tag_len. -/
def specBest (t : BcArray) (barcode : List Char) : Nat :=
  (mismatchCounts barcode t).foldl min t.tag_len

/-- Specification: the second-best mismatch count: the minimum over all
entries other than the first best one, capped at tag_len (and equal to
tag_len when there is no other entry). -/
def specSecondBest (t : BcArray) (barcode : List Char) : Nat :=
  (dropFirstMin (mismatchCounts barcode t)).foldl min t.tag_len

/-- Specification: the acceptance condition of find_best_match, amended with
the requirement that the best count be strictly below tag_len. -/
def specAccepted (t : BcArray) (opts : OptsT) (barcode : List Char) : Prop :=
  specBest t barcode < t.tag_len ∧
  (noCalls barcode : Int) ≤ opts.max_no_calls ∧
  (specBest t barcode : Int) ≤ opts.max_mismatches ∧
  (specSecondBest t barcode : Int) - (specBest t barcode : Int) ≥ opts.min_mismatch_delta

instance (t : BcArray) (opts : OptsT) (barcode : List Char) :
    Decidable (specAccepted t opts barcode) := by
  unfold specAccepted; infer_instance

/-- Specification: the field-substitution rule of the header rewrite, applied
to one tag/value pair for one emitted declaration. -/
def headerSpecTag (bcname : List Char) (lib sample desc : Option (List Char))
    (tv : List Char × List Char) : List Char × List Char :=
  ( tv.1,
    if tv.1 = ['P', 'U'] then tv.2 ++ '#' :: bcname
    else if tv.1 = ['L', 'B'] then lib.getD tv.2
    else if tv.1 = ['S', 'M'] then sample.getD tv.2
    else if tv.1 = ['D', 'S'] then desc.getD tv.2
    else tv.2 )

/-- Specification: one emitted read-group declaration for a barcode name and
its optional replacement metadata. -/
def headerSpecRG (rg : RG) (bcname : List Char)
    (lib sample desc : Option (List Char)) : RG :=
  { id := rg.id ++ '#' :: bcname,
    tags := rg.tags.map (headerSpecTag bcname lib sample desc) }

/-- Specification: the whole header rewrite: each original declaration is
replaced by one sentinel declaration (name 0, original LB/SM/DS kept) and
one declaration per barcode entry, the originals being discarded. -/
def headerSpec (t : BcArray) (rgs : List RG) : List RG :=
  rgs.flatMap (fun rg =>
    headerSpecRG rg ['0'] none none none ::
      t.entries.map (fun e =>
        headerSpecRG rg e.name (some e.lib) (some e.sample) (some e.desc)))

/-! ### Concrete instances used by counterexamples and witnesses -/

/-- A barcode entry with the given sequence and name and zeroed counters. -/
def mkBcd (s n : List Char) : BcDetails :=
  { seq := s, name := n, lib := [], sample := [], desc := [],
    reads := 0, pf_reads := 0, perfect := 0, pf_perfect := 0,
    one_mismatch := 0, pf_one_mismatch := 0 }

/-- Options with the compiled defaults. -/
def defaultOpts : OptsT :=
  { max_no_calls := 2, max_mismatches := 1, min_mismatch_delta := 1,
    max_low_quality_to_convert := 15, convert_low_quality := false,
    change_read_name := false }

/-- C1 counterexample table: tag length 2, two entries both at distance 2
from the observed barcode AA. -/
def tblCE1 : BcArray :=
  { tag_len := 2, entry0 := mkBcd ['N', 'N'] ['0'],
    entries := [mkBcd ['C', 'C'] ['1'], mkBcd ['G', 'G'] ['2']] }

/-- C1 counterexample options: max-mismatches 2, min-mismatch-delta 0. -/
def optsCE1 : OptsT :=
  { defaultOpts with max_mismatches := 2, min_mismatch_delta := 0 }

/-- Witness table for C1: barcodes AAAA (named 1) and CCCC (named 2). -/
def tblW1 : BcArray :=
  { tag_len := 4, entry0 := mkBcd ['N', 'N', 'N', 'N'] ['0'],
    entries := [mkBcd ['A', 'A', 'A', 'A'] ['1'], mkBcd ['C', 'C', 'C', 'C'] ['2']] }

/-- A record with a two-base barcode tag and a one-base quality tag. -/
def recCE3 : Record :=
  { name := ['r'], flag_paired := false, flag_qcfail := false,
    bc := some ['A', 'B'], qt := some ['!'], rg := none }

/-- Options with low-quality conversion switched on. -/
def optsCE3 : OptsT := { defaultOpts with convert_low_quality := true }

/-- C7 counterexample: one data row with six tab-separated fields. -/
def rowCE7 : List Char :=
  ['A', 'C', 'G', 'T', '\t', 'n', '\t', 'l', '\t', 's', '\t', 'd', '\t', 'x']

/-- C7 witness rows: two well-formed five-field rows of equal tag length. -/
def rowW7a : List Char :=
  ['A', 'C', '\t', 'n', '1', '\t', 'l', '1', '\t', 's', '1', '\t', 'd', '1']

/-- Second witness row for C7. -/
def rowW7b : List Char :=
  ['G', 'T', '\t', 'n', '2', '\t', 'l', '2', '\t', 's', '2', '\t', 'd', '2']

/-- C8 witness primary record: paired, with barcode tag AAAC. -/
def recW8 : Record :=
  { name := ['p'], flag_paired := true, flag_qcfail := false,
    bc := some ['A', 'A', 'A', 'C'], qt := none, rg := some ['r', 'g'] }

/-- C8 witness mate record, with its own different barcode tag. -/
def mateW8 : Record :=
  { name := ['p'], flag_paired := true, flag_qcfail := false,
    bc := some ['C', 'C', 'C', 'C'], qt := none, rg := some ['r', 'h'] }

/-- C10 record: paired, without a barcode tag. -/
def recC10 : Record :=
  { name := ['q'], flag_paired := true, flag_qcfail := false,
    bc := none, qt := none, rg := some ['r', 'g'] }

/-- Mate used in the C10 instances. -/
def mateC10 : Record :=
  { name := ['q'], flag_paired := true, flag_qcfail := true,
    bc := some ['G', 'G', 'G', 'G'], qt := none, rg := none }

/-- Options with read-name suffixing switched on. -/
def optsCE10 : OptsT := { defaultOpts with change_read_name := true }

/-- Witness table for C9: the freshly loaded state of tblW1 (sentinel all N,
counters zero). -/
def tblW9 : BcArray := tblW1

/-! ### Helper lemmas -/

theorem countMismatches_eq_filter (a b : List Char) :
    countMismatches a b =
      ((a.zip b).filter fun p => !isNoCall p.1 && !isNoCall p.2 && p.1 != p.2).length := by
  induction a generalizing b with
  | nil => simp [countMismatches]
  | cons t ts ih =>
    cases b with
    | nil => simp [countMismatches]
    | cons c cs =>
      simp only [countMismatches, List.zip_cons_cons, List.filter_cons]
      by_cases h1 : isNoCall t <;> by_cases h2 : isNoCall c <;> by_cases h3 : t = c <;>
        simp [h1, h2, h3, ih, Nat.add_comm]

theorem countMismatches_eq_hamming (a b : List Char)
    (ha : ∀ c ∈ a, isNoCall c = false) (hb : ∀ c ∈ b, isNoCall c = false) :
    countMismatches a b = hammingDist a b := by
  induction a generalizing b with
  | nil => cases b <;> simp [countMismatches, hammingDist]
  | cons t ts ih =>
    cases b with
    | nil => simp [countMismatches, hammingDist]
    | cons c cs =>
      have h1 : isNoCall t = false := ha t (List.mem_cons_self t ts)
      have h2 : isNoCall c = false := hb c (List.mem_cons_self c cs)
      have ih2 := ih cs (fun x hx => ha x (List.mem_cons_of_mem t hx))
        (fun x hx => hb x (List.mem_cons_of_mem c hx))
      simp [countMismatches, hammingDist, h1, h2, ih2]

theorem modifyAt_get_ne (f : BcDetails → BcDetails) :
    ∀ (l : List BcDetails) (i j : Nat), j ≠ i →
      (modifyAt f i l).get? j = l.get? j := by
  intro l
  induction l with
  | nil => intro i j _; simp [modifyAt]
  | cons x xs ih =>
    intro i j hne
    cases i with
    | zero =>
      cases j with
      | zero => exact absurd rfl hne
      | succ j => simp [modifyAt]
    | succ i =>
      cases j with
      | zero => simp [modifyAt]
      | succ j =>
        simp only [modifyAt, List.get?_cons_succ]
        exact ih i j (fun h => hne (by omega))

/-! ### C2 -/

/-- C2: for equal-length strings, countMismatches counts exactly the
positions where both characters lie outside the no-call set and differ, and
it equals the Hamming distance when neither string contains a no-call. -/
theorem countMismatches_spec (a b : List Char) (_h : a.length = b.length) :
    countMismatches a b =
      ((a.zip b).filter fun p => !isNoCall p.1 && !isNoCall p.2 && p.1 != p.2).length ∧
    ((∀ c ∈ a, isNoCall c = false) → (∀ c ∈ b, isNoCall c = false) →
      countMismatches a b = hammingDist a b) :=
  ⟨countMismatches_eq_filter a b, fun ha hb => countMismatches_eq_hamming a b ha hb⟩

/-- Witness for C2 at the spec example pair NAAA / CAAA. -/
theorem countMismatches_spec_witness :
    (['N', 'A', 'A', 'A'] : List Char).length = (['C', 'A', 'A', 'A'] : List Char).length ∧
    countMismatches ['N', 'A', 'A', 'A'] ['C', 'A', 'A', 'A'] =
      (((['N', 'A', 'A', 'A'] : List Char).zip ['C', 'A', 'A', 'A']).filter
        fun p => !isNoCall p.1 && !isNoCall p.2 && p.1 != p.2).length :=
  ⟨by decide,
   (countMismatches_spec ['N', 'A', 'A', 'A'] ['C', 'A', 'A', 'A'] (by decide)).1⟩

/-! ### C4 -/

/-- C4: updateMetrics increments reads by one, pf_reads by one exactly when
the read passes filter, the perfect counters exactly when the mismatch count
is 0, the one-mismatch counters exactly when it is 1; it changes no other
field, and through updateMetricsAt no other entry of the table changes. -/
theorem updateMetrics_spec (bcd : BcDetails) (s : List Char) (isPf : Bool)
    (t : BcArray) (i j : Nat) :
    (updateMetrics bcd (some s) isPf).reads = bcd.reads + 1 ∧
    (updateMetrics bcd (some s) isPf).pf_reads =
      bcd.pf_reads + (if isPf then 1 else 0) ∧
    (updateMetrics bcd (some s) isPf).perfect =
      bcd.perfect + (if countMismatches bcd.seq s = 0 then 1 else 0) ∧
    (updateMetrics bcd (some s) isPf).pf_perfect =
      bcd.pf_perfect + (if countMismatches bcd.seq s = 0 ∧ isPf = true then 1 else 0) ∧
    (updateMetrics bcd (some s) isPf).one_mismatch =
      bcd.one_mismatch + (if countMismatches bcd.seq s = 1 then 1 else 0) ∧
    (updateMetrics bcd (some s) isPf).pf_one_mismatch =
      bcd.pf_one_mismatch + (if countMismatches bcd.seq s = 1 ∧ isPf = true then 1 else 0) ∧
    (updateMetrics bcd (some s) isPf).seq = bcd.seq ∧
    (updateMetrics bcd (some s) isPf).name = bcd.name ∧
    (updateMetrics bcd (some s) isPf).lib = bcd.lib ∧
    (updateMetrics bcd (some s) isPf).sample = bcd.sample ∧
    (updateMetrics bcd (some s) isPf).desc = bcd.desc ∧
    (j ≠ i → (updateMetricsAt t (some i) (some s) isPf).entries.get? j = t.entries.get? j) ∧
    (updateMetricsAt t (some i) (some s) isPf).entry0 = t.entry0 ∧
    (updateMetricsAt t none (some s) isPf).entries = t.entries := by
  refine ⟨?_, ?_, ?_, ?_, ?_, ?_, ?_, ?_, ?_, ?_, ?_, fun hj => ?frame, rfl, rfl⟩
  case frame =>
    simp only [updateMetricsAt]
    exact modifyAt_get_ne _ t.entries i j hj
  all_goals cases isPf <;>
    rcases eq_or_ne (countMismatches bcd.seq s) 0 with h0 | h0 <;>
      rcases eq_or_ne (countMismatches bcd.seq s) 1 with h1 | h1 <;>
        first
          | omega
          | simp [updateMetrics, h0, h1]

/-- Witness for C4: updating entry 0 of the counterexample table leaves
entry 1 unchanged, and reads is incremented. -/
theorem updateMetrics_spec_witness :
    (updateMetrics (mkBcd ['C', 'C'] ['1']) (some ['A', 'C']) true).reads =
      (mkBcd ['C', 'C'] ['1']).reads + 1 ∧
    (updateMetricsAt tblCE1 (some 0) (some ['A', 'C']) true).entries.get? 1 =
      tblCE1.entries.get? 1 :=
  ⟨(updateMetrics_spec (mkBcd ['C', 'C'] ['1']) ['A', 'C'] true tblCE1 0 1).1,
   ((updateMetrics_spec (mkBcd ['C', 'C'] ['1']) ['A', 'C'] true tblCE1 0 1).2.2.2.2.2.2.2.2.2.2.2.1) (by decide)⟩

/-! ### C10 -/

/-- C10 counterexample: a paired record without a barcode attribute, with
name-suffixing configured, makes the C code call add_suffix with the NULL
name: the mate is not written through (the execution has no defined result,
modelled as none). -/
theorem processRecord_nobc_counterexample :
    recC10.bc = none ∧ recC10.flag_paired = true ∧
    optsCE10.change_read_name = true ∧
    processRecord optsCE10 tblCE1 [recC10, mateC10] = none := by
  decide

/-- C10 (amended): when name-suffixing is not configured, a paired record
without a barcode attribute is written through unchanged, its mate is read
and written through unchanged (read-group attributes of both untouched), and
no table counter changes. -/
theorem processRecord_nobc_passthrough (opts : OptsT) (t : BcArray)
    (r mate : Record) (rest : List Record)
    (hbc : r.bc = none) (hp : r.flag_paired = true)
    (hn : opts.change_read_name = false) :
    processRecord opts t (r :: mate :: rest) = some ([r, mate], rest, t) := by
  simp [processRecord, hbc, hp, hn]

/-- Witness for C10 at the concrete no-barcode pair under default options. -/
theorem processRecord_nobc_passthrough_witness :
    processRecord defaultOpts tblCE1 [recC10, mateC10] =
      some ([recC10, mateC10], [], tblCE1) :=
  processRecord_nobc_passthrough defaultOpts tblCE1 recC10 mateC10 []
    (by decide) (by decide) (by decide)

/-! ### C3 -/

theorem cbq_map_getD :
    ∀ (bq q : List Char) (m : Int) (i : Nat), bq.length = q.length → i < bq.length →
      ((bq.zip q).map fun p => if ((p.2.toNat : Int) - 33) ≤ m then 'N' else p.1).getD i 'A' =
        if (((q.getD i 'A').toNat : Int) - 33) ≤ m then 'N' else bq.getD i 'A' := by
  intro bq
  induction bq with
  | nil => intro q m i _ hi; simp at hi
  | cons x xs ih =>
    intro q m i h hi
    cases q with
    | nil => simp at h
    | cons y ys =>
      cases i with
      | zero => simp [List.getD]
      | succ i =>
        simp only [List.zip_cons_cons, List.map_cons]
        have h2 : xs.length = ys.length := by simpa using h
        have hi2 : i < xs.length := by simpa using hi
        simp [List.getD, ih ys m i h2 hi2]
        simpa [List.getD] using ih ys m i h2 hi2

/-- C3 counterexample: with a configured threshold of 0 the code converts a
base of Phred quality 1 (the C code falls back to the default threshold 15
when the configured value is 0, so the claimed condition quality ≤ threshold
is violated); and on a barcode/quality length mismatch the caller does not
proceed with the original barcode: it continues with a null barcode and the
record's processing has no defined result. -/
theorem checkBarcodeQuality_claim_counterexample :
    checkBarcodeQuality ['A'] ['"'] 0 = some ['N'] ∧
    ¬ ((('"'.toNat : Int) - 33) ≤ 0) ∧
    processRecord optsCE3 tblCE1 [recCE3] = none := by
  decide

/-- C3 (amended): for equal-length inputs checkBarcodeQuality succeeds and
position i of the result is N exactly when the Phred value of quality[i]
(ASCII minus 33) is at most the effective threshold, which is the configured
threshold unless that is 0, in which case the default 15; on a length
mismatch it signals failure by returning none, and the caller then continues
with a null barcode, so the record's processing has no defined result
(rather than proceeding with the original barcode). -/
theorem checkBarcodeQuality_amended (barcode quality : List Char) (mlq : Int) :
    (barcode.length = quality.length → (checkBarcodeQuality barcode quality mlq).isSome) ∧
    (∀ out, checkBarcodeQuality barcode quality mlq = some out →
      out.length = barcode.length ∧
      ∀ i, i < out.length →
        out.getD i 'A' =
          if (((quality.getD i 'A').toNat : Int) - 33) ≤ (if mlq = 0 then 15 else mlq)
          then 'N' else barcode.getD i 'A') ∧
    (barcode.length ≠ quality.length → checkBarcodeQuality barcode quality mlq = none) ∧
    (∀ (opts : OptsT) (t : BcArray) (r : Record) (rest : List Record)
        (seq qual : List Char),
      opts.convert_low_quality = true → r.bc = some seq → r.qt = some qual →
      seq.length ≠ qual.length → processRecord opts t (r :: rest) = none) := by
  refine ⟨fun h => ?_, fun out hout => ?_, fun h => ?_, ?_⟩
  · simp [checkBarcodeQuality, h]
  · by_cases h : barcode.length = quality.length
    · rw [checkBarcodeQuality, if_neg (not_not_intro h), Option.some.injEq] at hout
      subst hout
      constructor
      · simp [List.length_zip, h]
      · intro i hi
        have hi2 : i < barcode.length := by
          simpa [List.length_zip, h] using hi
        exact cbq_map_getD barcode quality (if mlq = 0 then 15 else mlq) i h hi2
    · simp [checkBarcodeQuality, h] at hout
  · simp [checkBarcodeQuality, h]
  · intro opts t r rest seq qual hc hb hq hne
    simp [processRecord, hb, prepareBarcode, hc, hq, checkBarcodeQuality, hne]

/-- Witness for C3: conversion on equal-length inputs succeeds. -/
theorem checkBarcodeQuality_amended_witness :
    (['A', 'C', 'G', 'T'] : List Char).length = (['!', 'I', '!', 'I'] : List Char).length ∧
    (checkBarcodeQuality ['A', 'C', 'G', 'T'] ['!', 'I', '!', 'I'] 15).isSome :=
  ⟨by decide,
   (checkBarcodeQuality_amended ['A', 'C', 'G', 'T'] ['!', 'I', '!', 'I'] 15).1 (by decide)⟩

/-! ### C7 -/

theorem strtokTabs_mem_ne_nil (l x : List Char) (hx : x ∈ strtokTabs l) :
    x ≠ [] := by
  have := (List.mem_filter.1 hx).2
  simpa using this

theorem loadRows_zero_cons (line : List Char) (rest : List (List Char))
    (acc : List BcDetails) (s0 s1 s2 s3 s4 : List Char) (restToks : List (List Char))
    (hL : strtokTabs line = s0 :: s1 :: s2 :: s3 :: s4 :: restToks) :
    loadRows 0 acc (line :: rest) =
      loadRows s0.length (acc ++ [⟨s0, s1, s2, s3, s4, 0, 0, 0, 0, 0, 0⟩]) rest := by
  simp [loadRows, hL]

theorem loadRows_isSome_iff :
    ∀ (rows : List (List Char)) (tagLength : Nat) (acc : List BcDetails),
      tagLength ≠ 0 → (∀ l ∈ rows, 5 ≤ (strtokTabs l).length) →
      ((loadRows tagLength acc rows).isSome ↔
        ∀ l ∈ rows, ((strtokTabs l).headD []).length = tagLength) := by
  intro rows
  induction rows with
  | nil => intro tagLength acc _ _; simp [loadRows]
  | cons line rest ih =>
    intro tagLength acc h0 h5
    have h5l := h5 line (List.mem_cons_self _ _)
    rcases hL : strtokTabs line with _ | ⟨s0, _ | ⟨s1, _ | ⟨s2, _ | ⟨s3, _ | ⟨s4, restToks⟩⟩⟩⟩⟩ <;>
      rw [hL] at h5l
    · simp at h5l
    · simp at h5l
    · simp at h5l
    · simp at h5l
    · simp at h5l
    · simp only [loadRows, hL, if_neg h0]
      by_cases he : tagLength = s0.length
      · rw [if_pos he]
        rw [ih tagLength _ h0 (fun l hl => h5 l (List.mem_cons_of_mem _ hl))]
        simp [List.forall_mem_cons, hL, List.headD_cons, he]
      · rw [if_neg he]
        simp only [Option.isSome_none, Bool.false_eq_true, false_iff]
        intro hall
        have hx := hall line (List.mem_cons_self _ _)
        rw [hL] at hx
        simp only [List.headD_cons] at hx
        exact he hx.symm

/-- C7 counterexample: a data row with six tab-separated fields (a wrong
field count) is accepted by the loader, the extra field being ignored, where
the claim requires loading to fail. -/
theorem loadBarcodeFile_claim_counterexample :
    5 ≠ (strtokTabs rowCE7).length ∧ (loadBarcodeFile [rowCE7]).isSome = true := by
  decide

/-- C7 (amended): provided every data row has at least five tab-separated
fields (with fewer the C code passes NULL to strdup, undefined behaviour;
extra fields beyond the fifth are ignored, not rejected), loading succeeds
exactly when every row's sequence has the same length as the first row's
sequence, and on success the sentinel's sequence is tag_len copies of N and
its name is 0. -/
theorem loadBarcodeFile_amended (rows : List (List Char))
    (h5 : ∀ l ∈ rows, 5 ≤ (strtokTabs l).length) :
    ((loadBarcodeFile rows).isSome ↔
      ∀ l ∈ rows,
        ((strtokTabs l).headD []).length = ((strtokTabs (rows.headD [])).headD []).length) ∧
    (∀ t, loadBarcodeFile rows = some t →
      t.entry0.seq = List.replicate t.tag_len 'N' ∧ t.entry0.name = ['0']) := by
  constructor
  · have hmatch : (loadBarcodeFile rows).isSome = (loadRows 0 [] rows).isSome := by
      unfold loadBarcodeFile
      rcases hR : loadRows 0 [] rows with _ | ⟨tl, es⟩ <;> simp [hR]
    rw [hmatch]
    cases rows with
    | nil => simp [loadRows]
    | cons line rest =>
      have h5l := h5 line (List.mem_cons_self _ _)
      rcases hL : strtokTabs line with _ | ⟨s0, _ | ⟨s1, _ | ⟨s2, _ | ⟨s3, _ | ⟨s4, restToks⟩⟩⟩⟩⟩ <;>
        rw [hL] at h5l
      · simp at h5l
      · simp at h5l
      · simp at h5l
      · simp at h5l
      · simp at h5l
      · have hs0 : s0 ≠ [] := by
          refine strtokTabs_mem_ne_nil line s0 ?_
          rw [hL]; exact List.mem_cons_self _ _
        have h0 : s0.length ≠ 0 := by
          simpa [List.length_eq_zero] using hs0
        rw [loadRows_zero_cons line rest [] s0 s1 s2 s3 s4 restToks hL]
        rw [loadRows_isSome_iff rest s0.length _ h0
          (fun l hl => h5 l (List.mem_cons_of_mem _ hl))]
        simp [List.forall_mem_cons, hL, List.headD_cons]
  · intro t ht
    unfold loadBarcodeFile at ht
    rcases hR : loadRows 0 [] rows with _ | ⟨tl, es⟩ <;> rw [hR] at ht
    · simp at ht
    · rw [Option.some.injEq] at ht
      subst ht
      exact ⟨rfl, rfl⟩

/-- Witness for C7: two well-formed rows of equal sequence length load
successfully. -/
theorem loadBarcodeFile_amended_witness :
    (∀ l ∈ [rowW7a, rowW7b], 5 ≤ (strtokTabs l).length) ∧
    ((loadBarcodeFile [rowW7a, rowW7b]).isSome ↔
      ∀ l ∈ [rowW7a, rowW7b],
        ((strtokTabs l).headD []).length =
          ((strtokTabs (([rowW7a, rowW7b] : List (List Char)).headD [])).headD []).length) :=
  ⟨by decide, (loadBarcodeFile_amended [rowW7a, rowW7b] (by decide)).1⟩

/-! ### C9 -/

theorem allNoCall_countMismatches (tag : List Char) :
    ∀ s, (∀ c ∈ tag, isNoCall c = true) → countMismatches tag s = 0 := by
  induction tag with
  | nil => intro s _; rfl
  | cons t ts ih =>
    intro s h
    cases s with
    | nil => rfl
    | cons b bs =>
      have ht := h t (List.mem_cons_self _ _)
      simp [countMismatches, ht, ih bs (fun c hc => h c (List.mem_cons_of_mem _ hc))]

/-- C9: when the sentinel's sequence consists of no-call symbols only, any
same-table counter update preserves the invariants perfect = reads and
pf_perfect = pf_reads on the sentinel, because the mismatch count of the
sentinel sequence against any observed string is 0; and every character of
the loaded sentinel sequence (replicate of N) is a no-call. -/
theorem sentinel_perfect_invariant (t : BcArray) (idx : Option Nat)
    (seq : List Char) (isPf : Bool)
    (hseq : ∀ c ∈ t.entry0.seq, isNoCall c = true)
    (hp : t.entry0.perfect = t.entry0.reads)
    (hpf : t.entry0.pf_perfect = t.entry0.pf_reads) :
    countMismatches t.entry0.seq seq = 0 ∧
    (∀ c ∈ (updateMetricsAt t idx (some seq) isPf).entry0.seq, isNoCall c = true) ∧
    (updateMetricsAt t idx (some seq) isPf).entry0.perfect =
      (updateMetricsAt t idx (some seq) isPf).entry0.reads ∧
    (updateMetricsAt t idx (some seq) isPf).entry0.pf_perfect =
      (updateMetricsAt t idx (some seq) isPf).entry0.pf_reads ∧
    (∀ (n : Nat), ∀ c ∈ List.replicate n 'N', isNoCall c = true) := by
  have h0 : countMismatches t.entry0.seq seq = 0 :=
    allNoCall_countMismatches t.entry0.seq seq hseq
  have hrep : ∀ (n : Nat), ∀ c ∈ List.replicate n 'N', isNoCall c = true := by
    intro n c hc
    rw [List.eq_of_mem_replicate hc]
    rfl
  cases idx with
  | none =>
    refine ⟨h0, ?_, ?_, ?_, hrep⟩
    · cases isPf <;> simpa [updateMetricsAt, updateMetrics, h0] using hseq
    · cases isPf <;> simp [updateMetricsAt, updateMetrics, h0, hp, hpf]
    · cases isPf <;> simp [updateMetricsAt, updateMetrics, h0, hp, hpf]
  | some i =>
    exact ⟨h0, hseq, hp, hpf, hrep⟩

/-- Witness for C9 on the freshly loaded witness table. -/
theorem sentinel_perfect_invariant_witness :
    countMismatches tblW9.entry0.seq ['A', 'A', 'A', 'C'] = 0 ∧
    (∀ c ∈ (updateMetricsAt tblW9 none (some ['A', 'A', 'A', 'C']) true).entry0.seq,
      isNoCall c = true) ∧
    (updateMetricsAt tblW9 none (some ['A', 'A', 'A', 'C']) true).entry0.perfect =
      (updateMetricsAt tblW9 none (some ['A', 'A', 'A', 'C']) true).entry0.reads ∧
    (updateMetricsAt tblW9 none (some ['A', 'A', 'A', 'C']) true).entry0.pf_perfect =
      (updateMetricsAt tblW9 none (some ['A', 'A', 'A', 'C']) true).entry0.pf_reads ∧
    (∀ (n : Nat), ∀ c ∈ List.replicate n 'N', isNoCall c = true) :=
  sentinel_perfect_invariant tblW9 none ['A', 'A', 'A', 'C'] true
    (by decide) (by decide) (by decide)

/-! ### C6 -/

theorem max_ite_eq (a b : Nat) : (if a < b then b else a) = max a b := by
  rcases Nat.lt_or_ge a b with h | h
  · simp [h, Nat.max_eq_right (Nat.le_of_lt h)]
  · simp [Nat.not_lt.mpr h, Nat.max_eq_left h]

theorem countLoop_spec :
    ∀ (es : List BcDetails) (acc : Totals),
      (countLoop acc es).total_reads = acc.total_reads + (es.map fun e => e.reads).sum ∧
      (countLoop acc es).total_pf_reads =
        acc.total_pf_reads + (es.map fun e => e.pf_reads).sum ∧
      (countLoop acc es).total_pf_reads_assigned =
        acc.total_pf_reads_assigned + (es.map fun e => e.pf_reads).sum ∧
      (countLoop acc es).max_reads = (es.map fun e => e.reads).foldl max acc.max_reads ∧
      (countLoop acc es).max_pf_reads =
        (es.map fun e => e.pf_reads).foldl max acc.max_pf_reads ∧
      (countLoop acc es).nReads = acc.nReads + es.length := by
  intro es
  induction es with
  | nil => intro acc; simp [countLoop]
  | cons bcd rest ih =>
    intro acc
    refine ⟨?_, ?_, ?_, ?_, ?_, ?_⟩ <;>
      simp only [countLoop, List.map_cons, List.sum_cons, List.foldl_cons, List.length_cons]
    · rw [(ih _).1]; simp; omega
    · rw [(ih _).2.1]; simp; omega
    · rw [(ih _).2.2.1]; simp; omega
    · rw [(ih _).2.2.2.1]; simp [max_ite_eq]
    · rw [(ih _).2.2.2.2.1]; simp [max_ite_eq]
    · rw [(ih _).2.2.2.2.2]; simp; omega

/-- C6: the metrics totals sum reads and pf_reads over all entries including
the sentinel, while the maxima and the assigned pf total range over the
non-sentinel entries only; every guarded ratio with a zero denominator
renders as 0; and the final (sentinel) row is emitted with an assigned
total of 0, so its pf_normalized_matches is always 0. -/
theorem writeMetrics_totals_spec (t : BcArray) :
    (computeTotals t).total_reads = t.entry0.reads + (t.entries.map fun e => e.reads).sum ∧
    (computeTotals t).total_pf_reads =
      t.entry0.pf_reads + (t.entries.map fun e => e.pf_reads).sum ∧
    (computeTotals t).total_pf_reads_assigned = (t.entries.map fun e => e.pf_reads).sum ∧
    (computeTotals t).max_reads = (t.entries.map fun e => e.reads).foldl max 0 ∧
    (computeTotals t).max_pf_reads = (t.entries.map fun e => e.pf_reads).foldl max 0 ∧
    (computeTotals t).nReads = t.entries.length ∧
    (∀ num : Nat, ratioOrZero num 0 = 0) ∧
    (∀ a b : Nat, normalizedOrZero a b 0 = 0) ∧
    (writeMetrics t).getLast? =
      some (writeMetricsLine { t.entry0 with perfect := 0, pf_perfect := 0, name := [] }
        (computeTotals t).total_reads (computeTotals t).max_reads
        (computeTotals t).total_pf_reads (computeTotals t).max_pf_reads 0
        (computeTotals t).nReads) ∧
    (∀ (bcd : BcDetails) (tr mr tpr mpr nR : Nat),
      (writeMetricsLine bcd tr mr tpr mpr 0 nR).m_pf_normalized = 0) := by
  obtain ⟨h1, h2, h3, h4, h5, h6⟩ :=
    countLoop_spec t.entries
      { total_reads := t.entry0.reads, total_pf_reads := t.entry0.pf_reads,
        total_pf_reads_assigned := 0, max_reads := 0, max_pf_reads := 0, nReads := 0 }
  refine ⟨?_, ?_, ?_, ?_, ?_, ?_, ?_, ?_, ?_, ?_⟩
  · rw [computeTotals, h1]
  · rw [computeTotals, h2]
  · rw [computeTotals, h3]; simp
  · rw [computeTotals, h4]
  · rw [computeTotals, h5]
  · rw [computeTotals, h6]; simp
  · intro num; simp [ratioOrZero]
  · intro a b; simp [normalizedOrZero]
  · simp only [writeMetrics]
    exact List.getLast?_concat _
  · intro bcd tr mr tpr mpr nR
    simp [writeMetricsLine, normalizedOrZero]

/-! ### C5 -/

theorem addNewRGtags_eq_map (bcname : List Char) (lib sample desc : Option (List Char)) :
    ∀ l, addNewRGtags bcname lib sample desc l =
      l.map (headerSpecTag bcname lib sample desc) := by
  intro l
  induction l with
  | nil => rfl
  | cons tv rest ih =>
    obtain ⟨t, v⟩ := tv
    simp only [addNewRGtags, List.map_cons, ih]
    congr 1
    by_cases h1 : t = ['P', 'U']
    · subst h1; cases lib <;> cases sample <;> cases desc <;> simp [headerSpecTag]
    · by_cases h2 : t = ['L', 'B']
      · subst h2; cases lib <;> cases sample <;> cases desc <;> simp [headerSpecTag]
      · by_cases h3 : t = ['D', 'S']
        · subst h3; cases lib <;> cases sample <;> cases desc <;> simp [headerSpecTag]
        · by_cases h4 : t = ['S', 'M']
          · subst h4; cases lib <;> cases sample <;> cases desc <;> simp [headerSpecTag]
          · simp [headerSpecTag, h1, h2, h3, h4]

theorem addNewRG_eq (rg : RG) (bcname : List Char)
    (lib sample desc : Option (List Char)) :
    addNewRG rg bcname lib sample desc = headerSpecRG rg bcname lib sample desc := by
  simp [addNewRG, headerSpecRG, addNewRGtags_eq_map]

/-- C5: the header rewrite replaces each original read-group declaration
with exactly 1 + N new declarations, one for the sentinel (ID suffixed #0,
original LB/SM/DS kept) and one per barcode entry (ID suffixed with the
entry name, PU suffixed likewise, LB/SM/DS replaced by the entry library,
sample and description), all other tags copied unchanged and the original
declarations discarded. -/
theorem changeHeader_spec (t : BcArray) (rgs : List RG) :
    changeHeader t rgs = headerSpec t rgs ∧
    (changeHeader t rgs).length = rgs.length * (1 + t.entries.length) := by
  constructor
  · induction rgs with
    | nil => rfl
    | cons rg rest ih =>
      simp only [changeHeader, headerSpec, List.flatMap_cons]
      rw [ih]
      simp [addNewRG_eq, headerSpec]
  · induction rgs with
    | nil => simp [changeHeader]
    | cons rg rest ih =>
      simp only [changeHeader, List.length_append, List.length_cons, List.length_map]
      rw [ih]
      ring

/-! ### C8 -/

/-- C8: for a paired record carrying a barcode attribute (whose prepared
barcode is defined), exactly one mate record is consumed next from the input
stream; the mate receives the read-group suffix #name of the entry chosen
for the first read (appended to the mate's own RG value) and, when
configured, the same name suffix; the table is updated by exactly one
updateMetrics call, driven by the first read's match: the mate is never
matched independently and no counter is incremented for it. -/
theorem processRecord_mate_spec (opts : OptsT) (t : BcArray) (r mate : Record)
    (rest : List Record) (seq ns0 ns name : List Char)
    (hbc : r.bc = some seq) (hp : r.flag_paired = true)
    (hprep : prepareBarcode opts r seq = some ns0)
    (hns : ns = if t.tag_len < seq.length then ns0.take t.tag_len else ns0)
    (hname : name = (entryAt t (findBestMatch ns t opts)).name) :
    processRecord opts t (r :: mate :: rest) =
      some
        ( [ (if opts.change_read_name then
               add_suffix { r with rg := some (makeNewTag r name) } name
             else { r with rg := some (makeNewTag r name) }),
            (if opts.change_read_name then
               add_suffix { mate with rg := some (makeNewTag mate name) } name
             else { mate with rg := some (makeNewTag mate name) }) ],
          rest,
          updateMetricsAt t (findBestMatch ns t opts) (some ns) (!r.flag_qcfail) ) := by
  subst hns hname
  simp only [processRecord, hbc, hp, hprep, findBarcodeName, if_true]

/-- Witness for C8: a concrete paired record with barcode AAAC against the
witness table; the chosen entry is the first one (name 1). -/
theorem processRecord_mate_spec_witness :
    processRecord defaultOpts tblW1 [recW8, mateW8] =
      some
        ( [ (if defaultOpts.change_read_name then
               add_suffix { recW8 with rg := some (makeNewTag recW8 ['1']) } ['1']
             else { recW8 with rg := some (makeNewTag recW8 ['1']) }),
            (if defaultOpts.change_read_name then
               add_suffix { mateW8 with rg := some (makeNewTag mateW8 ['1']) } ['1']
             else { mateW8 with rg := some (makeNewTag mateW8 ['1']) }) ],
          [],
          updateMetricsAt tblW1 (findBestMatch ['A', 'A', 'A', 'C'] tblW1 defaultOpts)
            (some ['A', 'A', 'A', 'C']) (!recW8.flag_qcfail) ) :=
  processRecord_mate_spec defaultOpts tblW1 recW8 mateW8 []
    ['A', 'A', 'A', 'C'] ['A', 'A', 'A', 'C'] ['A', 'A', 'A', 'C'] ['1']
    (by decide) (by decide) (by decide) (by decide) (by decide)

/-! ### C1 -/

theorem foldl_min_le_seed : ∀ (l : List Nat) (a : Nat), l.foldl min a ≤ a := by
  intro l
  induction l with
  | nil => intro a; exact le_rfl
  | cons x xs ih =>
    intro a
    calc (x :: xs).foldl min a = xs.foldl min (min a x) := rfl
    _ ≤ min a x := ih _
    _ ≤ a := min_le_left _ _

theorem foldl_min_le_mem : ∀ (l : List Nat) (a x : Nat), x ∈ l → l.foldl min a ≤ x := by
  intro l
  induction l with
  | nil => intro a x hx; simp at hx
  | cons y ys ih =>
    intro a x hx
    rcases List.mem_cons.1 hx with h | h
    · subst h
      calc (x :: ys).foldl min a = ys.foldl min (min a x) := rfl
      _ ≤ min a x := foldl_min_le_seed _ _
      _ ≤ x := min_le_right _ _
    · exact ih (min a y) x h

theorem le_foldl_min : ∀ (l : List Nat) (a b : Nat), b ≤ a → (∀ x ∈ l, b ≤ x) →
    b ≤ l.foldl min a := by
  intro l
  induction l with
  | nil => intro a b h _; exact h
  | cons y ys ih =>
    intro a b h hall
    exact ih (min a y) b (le_min h (hall y (List.mem_cons_self _ _)))
      (fun x hx => hall x (List.mem_cons_of_mem _ hx))

theorem foldl_min_eq_seed (l : List Nat) (a : Nat) (h : ∀ x ∈ l, a ≤ x) :
    l.foldl min a = a :=
  le_antisymm (foldl_min_le_seed l a) (le_foldl_min l a a le_rfl h)

theorem dropFirstMin_subset : ∀ (l : List Nat) (x : Nat), x ∈ dropFirstMin l → x ∈ l := by
  intro l
  induction l with
  | nil => intro x hx; simp [dropFirstMin] at hx
  | cons y ys ih =>
    intro x hx
    by_cases h : ∀ z ∈ ys, y ≤ z
    · rw [dropFirstMin, if_pos h] at hx
      exact List.mem_cons_of_mem _ hx
    · rw [dropFirstMin, if_neg h] at hx
      rcases List.mem_cons.1 hx with h2 | h2
      · subst h2; exact List.mem_cons_self _ _
      · exact List.mem_cons_of_mem _ (ih x h2)

theorem foldl_min_dropFirstMin_cons (l : List Nat) (a : Nat) :
    (dropFirstMin (a :: l)).foldl min a = (dropFirstMin l).foldl min a := by
  by_cases h : ∀ z ∈ l, a ≤ z
  · rw [dropFirstMin, if_pos h]
    rw [foldl_min_eq_seed l a h,
      foldl_min_eq_seed (dropFirstMin l) a (fun x hx => h x (dropFirstMin_subset l x hx))]
  · rw [dropFirstMin, if_neg h]
    calc (a :: dropFirstMin l).foldl min a = (dropFirstMin l).foldl min (min a a) := rfl
    _ = (dropFirstMin l).foldl min a := by rw [min_self]

theorem firstMinIdx_get :
    ∀ (l : List Nat), l ≠ [] → ∃ m, l.get? (firstMinIdx l) = some m ∧ ∀ y ∈ l, m ≤ y := by
  intro l
  induction l with
  | nil => intro h; exact absurd rfl h
  | cons x xs ih =>
    intro _
    by_cases h : ∀ z ∈ xs, x ≤ z
    · refine ⟨x, ?_, ?_⟩
      · rw [firstMinIdx, if_pos h]; rfl
      · intro y hy
        rcases List.mem_cons.1 hy with h2 | h2
        · subst h2; exact le_rfl
        · exact h y h2
    · have hneg := h
      push_neg at h
      obtain ⟨z, hz, hzx⟩ := h
      have hxs : xs ≠ [] := by
        intro he; subst he; simp at hz
      obtain ⟨m, hm1, hm2⟩ := ih hxs
      refine ⟨m, ?_, ?_⟩
      · rw [firstMinIdx, if_neg hneg]
        simpa using hm1
      · intro y hy
        rcases List.mem_cons.1 hy with h2 | h2
        · subst h2
          exact le_of_lt (lt_of_le_of_lt (hm2 z hz) hzx)
        · exact hm2 y h2

theorem firstMinIdx_before :
    ∀ (l : List Nat) (j x : Nat), j < firstMinIdx l → l.get? j = some x →
      ∃ m, l.get? (firstMinIdx l) = some m ∧ m < x := by
  intro l
  induction l with
  | nil => intro j x hj _; simp [firstMinIdx] at hj
  | cons y ys ih =>
    intro j x hj hx
    by_cases h : ∀ z ∈ ys, y ≤ z
    · rw [firstMinIdx, if_pos h] at hj
      exact absurd hj (Nat.not_lt_zero j)
    · have hneg := h
      rw [firstMinIdx, if_neg hneg] at hj
      cases j with
      | zero =>
        have hxy : y = x := by simpa using hx
        push_neg at h
        obtain ⟨z, hz, hzy⟩ := h
        have hys : ys ≠ [] := by
          intro he; subst he; simp at hz
        obtain ⟨m, hm1, hm2⟩ := firstMinIdx_get ys hys
        refine ⟨m, ?_, ?_⟩
        · rw [firstMinIdx, if_neg hneg]
          simpa using hm1
        · rw [← hxy]
          exact lt_of_le_of_lt (hm2 z hz) hzy
      | succ j =>
        have hj2 : j < firstMinIdx ys := by omega
        have hx2 : ys.get? j = some x := by simpa using hx
        obtain ⟨m, hm1, hm2⟩ := ih j x hj2 hx2
        refine ⟨m, ?_, hm2⟩
        rw [firstMinIdx, if_neg hneg]
        simpa using hm1

theorem specBest_lt_iff (t : BcArray) (barcode : List Char) :
    specBest t barcode < t.tag_len ↔
      ¬ ∀ c ∈ mismatchCounts barcode t, t.tag_len ≤ c := by
  constructor
  · intro h hall
    rw [specBest, foldl_min_eq_seed _ _ hall] at h
    exact lt_irrefl _ h
  · intro h
    push_neg at h
    obtain ⟨c, hc, hlt⟩ := h
    exact lt_of_le_of_lt (foldl_min_le_mem _ _ c hc) hlt

theorem bestLoop_eq (bc : List Char) :
    ∀ (es : List BcDetails) (idx : Nat) (bm : Option Nat) (nmB nm2 : Nat),
      nmB ≤ nm2 → (bm = none → nmB = nm2) →
      bestLoop bc es idx bm nmB nm2 =
        ( (if ∀ c ∈ es.map (fun e => countMismatches e.seq bc), nmB ≤ c then bm
           else some (idx + firstMinIdx (es.map (fun e => countMismatches e.seq bc)))),
          (es.map (fun e => countMismatches e.seq bc)).foldl min nmB,
          (dropFirstMin (nmB :: es.map (fun e => countMismatches e.seq bc))).foldl min nm2 ) := by
  intro es
  induction es with
  | nil =>
    intro idx bm nmB nm2 h1 h2
    simp [bestLoop, dropFirstMin]
  | cons e rest ih =>
    intro idx bm nmB nm2 h1 h2
    simp only [List.map_cons]
    by_cases hc : countMismatches e.seq bc < nmB
    · have harg : (if bm.isSome then nmB else nm2) = nmB := by
        cases bm with
        | none => simpa using (h2 rfl).symm
        | some b => rfl
      have hnotall :
          ¬ ∀ x ∈ countMismatches e.seq bc :: rest.map (fun e => countMismatches e.seq bc),
            nmB ≤ x := by
        intro hall
        exact absurd (hall _ (List.mem_cons_self _ _)) (Nat.not_le.2 hc)
      simp only [bestLoop]
      rw [if_pos hc, harg]
      rw [ih (idx + 1) (some idx) (countMismatches e.seq bc) nmB (le_of_lt hc)
        (fun h => nomatch h)]
      simp only [Prod.mk.injEq]
      refine ⟨?_, ?_, ?_⟩
      · rw [if_neg hnotall, firstMinIdx]
        by_cases hAll : ∀ y ∈ rest.map (fun e => countMismatches e.seq bc),
            countMismatches e.seq bc ≤ y
        · rw [if_pos hAll, if_pos hAll]
          simp
        · rw [if_neg hAll, if_neg hAll]
          congr 1
          omega
      · rw [List.foldl_cons, min_eq_right (le_of_lt hc)]
      · rw [show dropFirstMin (nmB :: countMismatches e.seq bc ::
              rest.map (fun e => countMismatches e.seq bc)) =
            nmB :: dropFirstMin (countMismatches e.seq bc ::
              rest.map (fun e => countMismatches e.seq bc)) from by
          rw [dropFirstMin, if_neg hnotall]]
        rw [List.foldl_cons, min_eq_right h1]
    · have hge : nmB ≤ countMismatches e.seq bc := Nat.not_lt.1 hc
      have harg2 : (if countMismatches e.seq bc < nm2 then countMismatches e.seq bc else nm2) =
          min nm2 (countMismatches e.seq bc) := by
        rcases Nat.lt_or_ge (countMismatches e.seq bc) nm2 with h | h
        · rw [if_pos h, min_eq_right (le_of_lt h)]
        · rw [if_neg (Nat.not_lt.2 h), min_eq_left h]
      simp only [bestLoop]
      rw [if_neg hc, harg2]
      have hinv1 : nmB ≤ min nm2 (countMismatches e.seq bc) := le_min h1 hge
      have hinv2 : bm = none → nmB = min nm2 (countMismatches e.seq bc) := by
        intro h
        rw [← h2 h]
        exact (min_eq_left hge).symm
      rw [ih (idx + 1) bm nmB (min nm2 (countMismatches e.seq bc)) hinv1 hinv2]
      simp only [Prod.mk.injEq]
      refine ⟨?_, ?_, ?_⟩
      · by_cases hAll : ∀ x ∈ rest.map (fun e => countMismatches e.seq bc), nmB ≤ x
        · have hall2 : ∀ x ∈ countMismatches e.seq bc ::
              rest.map (fun e => countMismatches e.seq bc), nmB ≤ x := by
            intro x hx
            rcases List.mem_cons.1 hx with h2x | h2x
            · subst h2x; exact hge
            · exact hAll x h2x
          rw [if_pos hAll, if_pos hall2]
        · have hnall2 : ¬ ∀ x ∈ countMismatches e.seq bc ::
              rest.map (fun e => countMismatches e.seq bc), nmB ≤ x := by
            intro hall
            exact hAll (fun x hx => hall x (List.mem_cons_of_mem _ hx))
          rw [if_neg hAll, if_neg hnall2]
          have hcnot : ¬ ∀ y ∈ rest.map (fun e => countMismatches e.seq bc),
              countMismatches e.seq bc ≤ y := by
            intro hcall
            exact hAll (fun x hx => le_trans hge (hcall x hx))
          rw [firstMinIdx, if_neg hcnot]
          congr 1
          omega
      · rw [List.foldl_cons, min_eq_left hge]
      · by_cases hAll : ∀ x ∈ rest.map (fun e => countMismatches e.seq bc), nmB ≤ x
        · have hall2 : ∀ x ∈ countMismatches e.seq bc ::
              rest.map (fun e => countMismatches e.seq bc), nmB ≤ x := by
            intro x hx
            rcases List.mem_cons.1 hx with h2x | h2x
            · subst h2x; exact hge
            · exact hAll x h2x
          rw [show dropFirstMin (nmB :: rest.map (fun e => countMismatches e.seq bc)) =
                rest.map (fun e => countMismatches e.seq bc) from by
              rw [dropFirstMin, if_pos hAll]]
          rw [show dropFirstMin (nmB :: countMismatches e.seq bc ::
                rest.map (fun e => countMismatches e.seq bc)) =
              countMismatches e.seq bc :: rest.map (fun e => countMismatches e.seq bc) from by
            rw [dropFirstMin, if_pos hall2]]
          rw [List.foldl_cons]
        · have hnall2 : ¬ ∀ x ∈ countMismatches e.seq bc ::
              rest.map (fun e => countMismatches e.seq bc), nmB ≤ x := by
            intro hall
            exact hAll (fun x hx => hall x (List.mem_cons_of_mem _ hx))
          have hcnot : ¬ ∀ y ∈ rest.map (fun e => countMismatches e.seq bc),
              countMismatches e.seq bc ≤ y := by
            intro hcall
            exact hAll (fun x hx => le_trans hge (hcall x hx))
          rw [show dropFirstMin (nmB :: rest.map (fun e => countMismatches e.seq bc)) =
                nmB :: dropFirstMin (rest.map (fun e => countMismatches e.seq bc)) from by
              rw [dropFirstMin, if_neg hAll]]
          rw [show dropFirstMin (nmB :: countMismatches e.seq bc ::
                rest.map (fun e => countMismatches e.seq bc)) =
              nmB :: dropFirstMin (countMismatches e.seq bc ::
                rest.map (fun e => countMismatches e.seq bc)) from by
            rw [dropFirstMin, if_neg hnall2]]
          rw [show dropFirstMin (countMismatches e.seq bc ::
                rest.map (fun e => countMismatches e.seq bc)) =
              countMismatches e.seq bc ::
                dropFirstMin (rest.map (fun e => countMismatches e.seq bc)) from by
            rw [dropFirstMin, if_neg hcnot]]
          rw [List.foldl_cons, List.foldl_cons, List.foldl_cons]
          congr 1
          rw [min_assoc, min_assoc, min_comm (countMismatches e.seq bc) nmB]

theorem mismatchCounts_get_firstMin (t : BcArray) (barcode : List Char)
    (hlt : specBest t barcode < t.tag_len) :
    (mismatchCounts barcode t).get? (firstMinIdx (mismatchCounts barcode t)) =
      some (specBest t barcode) := by
  have hne : mismatchCounts barcode t ≠ [] := by
    intro he
    rw [specBest, he] at hlt
    simp at hlt
  obtain ⟨m, hm1, hm2⟩ := firstMinIdx_get _ hne
  have hmem : m ∈ mismatchCounts barcode t := List.get?_mem hm1
  have hle1 : specBest t barcode ≤ m := foldl_min_le_mem _ _ m hmem
  have hle2 : m ≤ specBest t barcode := by
    refine le_foldl_min _ _ _ ?_ hm2
    have h := (specBest_lt_iff t barcode).1 hlt
    push_neg at h
    obtain ⟨c, hc, hclt⟩ := h
    exact le_of_lt (lt_of_le_of_lt (hm2 c hc) hclt)
  rw [hm1, le_antisymm hle2 hle1]

/-- C1 counterexample: for the table with barcodes CC and GG, observed AA,
max-no-calls 2, max-mismatches 2 and min-mismatch-delta 0, the claimed
acceptance conditions all hold (0 no-calls, best mismatch count 2 at the
first entry, second best 2, delta 0), yet findBestMatch returns the sentinel
(none) instead of the first minimum-mismatch entry, because its best and
second-best trackers are initialised to tag_len = 2 and an entry at distance
exactly tag_len is never selected. -/
theorem findBestMatch_claim_counterexample :
    countMismatches (mkBcd ['C', 'C'] ['1']).seq ['A', 'A'] = 2 ∧
    countMismatches (mkBcd ['G', 'G'] ['2']).seq ['A', 'A'] = 2 ∧
    tblCE1.entries = [mkBcd ['C', 'C'] ['1'], mkBcd ['G', 'G'] ['2']] ∧
    (noCalls ['A', 'A'] : Int) ≤ optsCE1.max_no_calls ∧
    ((2 : Int) ≤ optsCE1.max_mismatches) ∧
    ((2 : Int) - (2 : Int) ≥ optsCE1.min_mismatch_delta) ∧
    findBestMatch ['A', 'A'] tblCE1 optsCE1 = none := by
  decide

/-- C1 (amended): findBestMatch returns the first entry attaining the
minimum mismatch count if and only if the number of no-calls in the observed
string is at most max_no_calls, the best count is at most max_mismatches,
the best count is strictly below tag_len (best and second-best are
initialised to tag_len, so an entry at distance exactly tag_len is never
selected), and second_best minus best is at least min_mismatch_delta, where
second_best is the minimum count over the other entries capped at tag_len
(tag_len itself when there is no other entry); in every other case,
including a table with no non-sentinel entries, it returns the sentinel. -/
theorem findBestMatch_amended (t : BcArray) (opts : OptsT) (barcode : List Char) :
    (specAccepted t opts barcode →
      findBestMatch barcode t opts = some (firstMinIdx (mismatchCounts barcode t)) ∧
      (∃ e, t.entries.get? (firstMinIdx (mismatchCounts barcode t)) = some e ∧
        countMismatches e.seq barcode = specBest t barcode) ∧
      (∀ j e2, j < firstMinIdx (mismatchCounts barcode t) →
        t.entries.get? j = some e2 →
        specBest t barcode < countMismatches e2.seq barcode)) ∧
    (¬ specAccepted t opts barcode → findBestMatch barcode t opts = none) := by
  have hbl := bestLoop_eq barcode t.entries 0 none t.tag_len t.tag_len le_rfl (fun _ => rfl)
  constructor
  · intro hacc
    obtain ⟨h1, h2, h3, h4⟩ := hacc
    have hAll2 : ¬ ∀ c ∈ t.entries.map (fun e => countMismatches e.seq barcode),
        t.tag_len ≤ c := (specBest_lt_iff t barcode).1 h1
    refine ⟨?_, ?_, ?_⟩
    · unfold findBestMatch
      rw [hbl]
      rw [if_neg hAll2]
      have h4b : (((dropFirstMin (t.tag_len ::
            t.entries.map (fun e => countMismatches e.seq barcode))).foldl min
            t.tag_len : Nat) : Int) -
          (((t.entries.map (fun e => countMismatches e.seq barcode)).foldl min
            t.tag_len : Nat) : Int) ≥ opts.min_mismatch_delta := by
        rw [foldl_min_dropFirstMin_cons]
        exact h4
      rw [if_pos ⟨rfl, h2, h3, h4b⟩]
      simp [mismatchCounts]
    · have hkey := mismatchCounts_get_firstMin t barcode h1
      rw [show mismatchCounts barcode t =
          t.entries.map (fun e => countMismatches e.seq barcode) from rfl,
        List.get?_map] at hkey
      cases he : t.entries.get? (firstMinIdx (mismatchCounts barcode t)) with
      | none =>
        rw [show (firstMinIdx (mismatchCounts barcode t)) =
            firstMinIdx (t.entries.map (fun e => countMismatches e.seq barcode)) from rfl] at he
        rw [he] at hkey
        simp at hkey
      | some e =>
        rw [show (firstMinIdx (mismatchCounts barcode t)) =
            firstMinIdx (t.entries.map (fun e => countMismatches e.seq barcode)) from rfl] at he
        rw [he] at hkey
        simp at hkey
        exact ⟨e, rfl, hkey⟩
    · intro j e2 hj hje
      have hcs : (mismatchCounts barcode t).get? j =
          some (countMismatches e2.seq barcode) := by
        rw [show mismatchCounts barcode t =
            t.entries.map (fun e => countMismatches e.seq barcode) from rfl,
          List.get?_map, hje]
        rfl
      obtain ⟨m, hm1, hm2⟩ := firstMinIdx_before _ j _ hj hcs
      have hkey := mismatchCounts_get_firstMin t barcode h1
      rw [hkey] at hm1
      have hme : specBest t barcode = m := by
        injection hm1
      rw [hme]
      exact hm2
  · intro hnacc
    unfold findBestMatch
    rw [hbl]
    by_cases hAll : ∀ c ∈ t.entries.map (fun e => countMismatches e.seq barcode),
        t.tag_len ≤ c
    · rw [if_pos hAll]
      simp
    · rw [if_neg hAll]
      have h1 : specBest t barcode < t.tag_len := (specBest_lt_iff t barcode).2 hAll
      have hneg : ¬ ((some (0 + firstMinIdx
            (t.entries.map (fun e => countMismatches e.seq barcode)))).isSome = true ∧
          (noCalls barcode : Int) ≤ opts.max_no_calls ∧
          (((t.entries.map (fun e => countMismatches e.seq barcode)).foldl min
            t.tag_len : Nat) : Int) ≤ opts.max_mismatches ∧
          (((dropFirstMin (t.tag_len ::
            t.entries.map (fun e => countMismatches e.seq barcode))).foldl min
            t.tag_len : Nat) : Int) -
          (((t.entries.map (fun e => countMismatches e.seq barcode)).foldl min
            t.tag_len : Nat) : Int) ≥ opts.min_mismatch_delta) := by
        intro hcond
        obtain ⟨_, hA, hB, hC⟩ := hcond
        apply hnacc
        refine ⟨h1, hA, hB, ?_⟩
        rw [foldl_min_dropFirstMin_cons] at hC
        exact hC
      rw [if_neg hneg]

/-- Witness for C1: observed AAAC against the witness table is accepted and
matched to entry 0 (barcode AAAA, one mismatch, second best 3, delta 2). -/
theorem findBestMatch_amended_witness :
    specAccepted tblW1 defaultOpts ['A', 'A', 'A', 'C'] ∧
    findBestMatch ['A', 'A', 'A', 'C'] tblW1 defaultOpts =
      some (firstMinIdx (mismatchCounts ['A', 'A', 'A', 'C'] tblW1)) :=
  ⟨by decide,
   ((findBestMatch_amended tblW1 defaultOpts ['A', 'A', 'A', 'C']).1 (by decide)).1⟩

end BambiDecode
